import Mathlib

/-!
A shallow embedding of `src/Laboratory.js` (the `Laboratory` class): an
inventory of named substances, a recipe table, SCC analysis of recipe
dependencies, Gauss-Jordan inversion of each cyclic component's linear
system, and the production engine (`make`).  JS numbers are modelled as
rationals (exact arithmetic), JS `Map`s as insertion-ordered association
lists, and JS exceptions as `Except`.  Recursive resolution is modelled
with an explicit fuel parameter; running out of fuel is a distinct error
value, so any theorem conditioned on a successful (`Except.ok`) run speaks
about executions the JS code performs.
-/

/-- Error taxonomy mirroring the JS error classes thrown by `Laboratory`:
`TypeError`, `RangeError`, `ReferenceError` and plain `Error`, plus the
artificial out-of-fuel marker of the embedding. -/
inductive LabErr where
  | typeErr (msg : String)
  | rangeErr (msg : String)
  | refErr (msg : String)
  | plainErr (msg : String)
  | fuelErr
deriving DecidableEq

/-- A normalized reagent requirement: `{ substance, quantity }` as produced
by `#normalizeReagents` (quantity = coefficient consumed per unit made). -/
structure Reagent where
  quantity : ℚ
  substance : String
deriving DecidableEq

/-- First value bound to a key in an association list (JS `Map.get`). -/
def assocGet? {α : Type} : List (String × α) → String → Option α
  | [], _ => none
  | (k, v) :: rest, key => if k = key then some v else assocGet? rest key

/-- JS `Map.set`: update in place when the key is present (keeping its
insertion position), append otherwise. -/
def assocSet {α : Type} : List (String × α) → String → α → List (String × α)
  | [], key, v => [(key, v)]
  | (k, w) :: rest, key, v =>
    if k = key then (key, v) :: rest else (k, w) :: assocSet rest key v

/-- JS `Map.has`. -/
def assocHas {α : Type} (l : List (String × α)) (key : String) : Bool :=
  (assocGet? l key).isSome

/-- The inventory: normalized substance name to current quantity. -/
abbrev Stock := List (String × ℚ)

/-- `#inventory.get(name)` where the name is known to be present; the
default 0 is never reached on inventories built by the constructor. -/
def Stock.getQ (inv : Stock) (key : String) : ℚ :=
  (assocGet? inv key).getD 0

/-- A strongly connected component as built by `#createComponent`:
its member products (in Tarjan pop order), the cyclic tag, and the cached
inverse of `I - M` (empty for acyclic components, JS `null`). -/
structure Component where
  products : List String
  isCyclic : Bool
  inverse : List (List ℚ)
deriving DecidableEq

/-- The whole `Laboratory` state: `#inventory`, `#recipes`, `#components`
and `#componentLookup`. -/
structure Lab where
  inventory : Stock
  recipes : List (String × List Reagent)
  components : List Component
  componentLookup : List (String × Component)
deriving DecidableEq

/-- ASCII lower-casing of one character (`toLowerCase` restricted to the
ASCII range, which covers every name exercised here). -/
def lowerChar (c : Char) : Char :=
  if 'A' ≤ c ∧ c ≤ 'Z' then Char.ofNat (c.toNat + 32) else c

/-- ASCII whitespace, the fragment of the JS `trim` character class that
matters for the names exercised here. -/
def wsChar (c : Char) : Bool :=
  c = ' ' || c = '\t' || c = '\n' || c = '\r'

/-- `#normalizeName`: trim, lower-case, reject the empty result.
Implemented on the character list so that it evaluates by reduction. -/
def normalizeName (value : String) : Option String :=
  let trimmed := ((value.data.dropWhile wsChar).reverse.dropWhile wsChar).reverse
  let normalizedValue := String.mk (trimmed.map lowerChar)
  if normalizedValue.data.length > 0 then some normalizedValue else none

/-- `#normalizeQuantity` on a number: a negative quantity is a
`RangeError` (the non-number / non-finite `TypeError` branch cannot fire on
rationals). -/
def normalizeQuantity (value : ℚ) : Except LabErr ℚ :=
  if value < 0 then .error (.rangeErr "Quantity cannot be negative")
  else .ok value

/-- `#buildBaseInventory`: register each raw substance at quantity 0,
rejecting empty lists, malformed names and duplicates. -/
def buildBaseInventory (knownSubstances : List String) : Except LabErr Stock :=
  if knownSubstances.length = 0 then
    .error (.rangeErr "At least one substance must be provided")
  else
    knownSubstances.foldlM (fun inv name =>
      match normalizeName name with
      | none => .error (.typeErr "Invalid substance name in known substances")
      | some normalized =>
        if assocHas inv normalized then
          .error (.rangeErr "Duplicate substance name")
        else .ok (assocSet inv normalized 0)) []

/-- `#normalizeReagents`: a recipe must be a non-empty list of
(quantity, substance) pairs over already-registered substances with
finite non-negative coefficients. -/
def normalizeReagents (inv : Stock) (reagents : List (ℚ × String)) :
    Except LabErr (List Reagent) :=
  if reagents.length = 0 then
    .error (.typeErr "Reactions must be a non-empty array")
  else
    reagents.mapM (fun entry =>
      match normalizeName entry.2 with
      | none => .error (.typeErr "Invalid substance name in reaction")
      | some normalizedSubstance =>
        if assocHas inv normalizedSubstance then
          (normalizeQuantity entry.1).map
            (fun qty => Reagent.mk qty normalizedSubstance)
        else .error (.refErr "Reaction references unknown substance"))

/-- First pass of `#buildRecipes`: normalize every product name, check for
collisions, and register each product in the inventory at 0 before any
reagent list is validated (this is what allows forward references). -/
def registerProducts (inv : Stock)
    (reactions : List (String × List (ℚ × String))) :
    Except LabErr (Stock × List (String × String)) :=
  reactions.foldlM (fun acc entry =>
    match normalizeName entry.1 with
    | none => .error (.typeErr "Invalid product name in reactions")
    | some normalizedProduct =>
      if assocHas acc.1 normalizedProduct then
        .error (.rangeErr "Duplicate substance name")
      else
        .ok (assocSet acc.1 normalizedProduct 0,
             acc.2 ++ [(entry.1, normalizedProduct)])) (inv, [])

/-- `#buildRecipes`: register all products, then validate each reagent
list against the completed inventory. -/
def buildRecipes (inv : Stock)
    (reactions : List (String × List (ℚ × String))) :
    Except LabErr (Stock × List (String × List Reagent)) := do
  let reg ← registerProducts inv reactions
  let recipes ← reg.2.foldlM (fun recs entry => do
      let reagents ← normalizeReagents reg.1 ((assocGet? reactions entry.1).getD [])
      pure (assocSet recs entry.2 reagents)) ([] : List (String × List Reagent))
  pure (reg.1, recipes)

/-- `#applyInitialStock`: each override must name a known substance
(checked before the quantity) and carry a valid quantity. -/
def applyInitialStock (inv : Stock) (initialStock : List (String × ℚ)) :
    Except LabErr Stock :=
  initialStock.foldlM (fun inv entry =>
    match normalizeName entry.1 with
    | none => .error (.plainErr "Invalid substance name in initial stock")
    | some normalizedName =>
      if assocHas inv normalizedName then
        (normalizeQuantity entry.2).map (fun q => assocSet inv normalizedName q)
      else .error (.refErr "Initial stock references unknown substance")) inv

/-- Entry `(i, j)` of a row-major matrix, defaulting to 0 out of range
(in range on every matrix the constructor builds). -/
def matGet (m : List (List ℚ)) (i j : Nat) : ℚ :=
  ((m.getD i []).getD j 0)

/-- The partial-pivot search of `#invertMatrix`: starting from `pivotRow =
col`, scan the rows below `col` in order and move to any row whose entry in
column `col` is strictly larger in absolute value. -/
def findPivotRow (aug : List (List ℚ)) (col : Nat) : Nat :=
  (List.range aug.length).foldl (fun pivotRow row =>
    if col < row ∧ |matGet aug row col| > |matGet aug pivotRow col| then row
    else pivotRow) col

/-- Swap two rows of the augmented matrix. -/
def swapRows (aug : List (List ℚ)) (i j : Nat) : List (List ℚ) :=
  (aug.set i (aug.getD j [])).set j (aug.getD i [])

/-- Divide every entry of row `i` by `factor`. -/
def scaleRow (aug : List (List ℚ)) (i : Nat) (factor : ℚ) : List (List ℚ) :=
  aug.set i ((aug.getD i []).map (fun x => x / factor))

/-- Subtract `factor × (pivot row)` from every row other than `col`, where
`factor` is that row's entry in column `col`. -/
def eliminateColumn (aug : List (List ℚ)) (col : Nat) : List (List ℚ) :=
  let pivotRowVals := aug.getD col []
  (List.range aug.length).foldl (fun m row =>
    if row = col then m
    else
      let factor := matGet m row col
      m.set row (((m.getD row []).zip pivotRowVals).map
        (fun p => p.1 - factor * p.2))) aug

/-- One column step of Gauss-Jordan elimination as in `#invertMatrix`:
select the pivot row, swap it up, scale the pivot row to 1, eliminate the
column from all other rows. -/
def gaussStep (aug : List (List ℚ)) (col : Nat) : List (List ℚ) :=
  let pivotRow := findPivotRow aug col
  let aug1 := if pivotRow = col then aug else swapRows aug col pivotRow
  let pivotFactor := matGet aug1 col col
  eliminateColumn (scaleRow aug1 col pivotFactor) col

/-- JS `Number.EPSILON`, exactly. -/
def machineEpsilon : ℚ := 1 / 2 ^ 52

/-- The message of the `SingularSystem` error thrown by `#invertMatrix`. -/
def singularMsg : String :=
  "Circular reaction matrix is singular and cannot be resolved"

/-- The column loop of `#invertMatrix`, with one unit of fuel per column
(`invertMatrix` supplies exactly `n`): fail if the selected pivot's
magnitude is below machine epsilon, otherwise perform the step. -/
def gaussLoop : Nat → Nat → List (List ℚ) → Except LabErr (List (List ℚ))
  | 0, _, aug => .ok aug
  | fuel + 1, col, aug =>
    let pivotRow := findPivotRow aug col
    let pivotValue := matGet aug pivotRow col
    if |pivotValue| < machineEpsilon then .error (.plainErr singularMsg)
    else gaussLoop fuel (col + 1) (gaussStep aug col)

/-- The `[...row, ...identityRow]` augmentation of `#invertMatrix`. -/
def augmentedOf (matrix : List (List ℚ)) : List (List ℚ) :=
  let n := matrix.length
  (List.range n).map (fun i =>
    (matrix.getD i []) ++ (List.range n).map (fun j => if j = i then (1 : ℚ) else 0))

/-- `#invertMatrix`: Gauss-Jordan elimination with partial pivoting over the
augmented matrix `[M | I]`, returning the right half. -/
def invertMatrix (matrix : List (List ℚ)) : Except LabErr (List (List ℚ)) :=
  let n := matrix.length
  (gaussLoop n 0 (augmentedOf matrix)).map (fun aug => aug.map (fun row => row.drop n))

/-- `#multiplyMatrixVector`. -/
def multiplyMatrixVector (matrix : List (List ℚ)) (vector : List ℚ) : List ℚ :=
  matrix.map (fun row => row.enum.foldl (fun sum iv => sum + iv.2 * vector.getD iv.1 0) 0)

/-- The component dependency matrix of `#computeComponentInverse`:
`M[row][col]` accumulates the coefficients with which product `col`'s
recipe consumes component member `row`. -/
def buildDependencyMatrix (recipes : List (String × List Reagent))
    (products : List String) : List (List ℚ) :=
  products.map (fun rowProd => products.map (fun colProd =>
    ((assocGet? recipes colProd).getD []).foldl
      (fun s reagent => if reagent.substance = rowProd then s + reagent.quantity else s) 0))

/-- `#computeComponentInverse`: invert `I - M` for the component. -/
def computeComponentInverse (recipes : List (String × List Reagent))
    (products : List String) : Except LabErr (List (List ℚ)) :=
  let m := buildDependencyMatrix recipes products
  let system := (List.range products.length).map (fun row =>
    (List.range products.length).map (fun col =>
      (if row = col then (1 : ℚ) else 0) - matGet m row col))
  invertMatrix system

/-- `#createComponent`: a component is cyclic when it has more than one
member or a member whose recipe consumes itself with positive coefficient;
cyclic components carry the inverse of their system matrix. -/
def createComponent (recipes : List (String × List Reagent))
    (products : List String) : Except LabErr Component :=
  let hasSelfLoop := products.any (fun product =>
    ((assocGet? recipes product).getD []).any
      (fun r => decide (r.substance = product ∧ 0 < r.quantity)))
  if products.length > 1 || hasSelfLoop then
    (computeComponentInverse recipes products).map
      (fun inverse => ⟨products, true, inverse⟩)
  else .ok ⟨products, false, []⟩

/-- The product-only dependency edges of one recipe, deduplicated in
insertion order (a JS `Set`). -/
def dependencyEdges (recipes : List (String × List Reagent))
    (recipe : List Reagent) : List String :=
  recipe.foldl (fun edges reagent =>
    if assocHas recipes reagent.substance && !(edges.contains reagent.substance) then
      edges ++ [reagent.substance]
    else edges) []

/-- The dependency graph of `#analyzeReactionGraph`: one node per product,
edges to recipe reagents that are themselves products. -/
def reactionGraph (recipes : List (String × List Reagent)) :
    List (String × List String) :=
  recipes.map (fun e => (e.1, dependencyEdges recipes e.2))

/-- Mutable state of the Tarjan traversal in `#analyzeReactionGraph`. -/
structure TarjanState where
  indices : List (String × Nat)
  lowlinks : List (String × Nat)
  stack : List String
  onStack : List String
  comps : List (List String)
  nextIndex : Nat

/-- Index/lowlink lookup (present for every visited node). -/
def getNat (l : List (String × Nat)) (k : String) : Nat :=
  (assocGet? l k).getD 0

/-- The do-while pop loop closing a component: pop the traversal stack
until `v` comes off, collecting products in pop order. -/
def popUntil (v : String) : Nat → List String → List String × List String
  | 0, stk => ([], stk)
  | fuel + 1, stk =>
    match stk.getLast? with
    | none => ([], stk)
    | some current =>
      let stk' := stk.dropLast
      if current = v then ([current], stk')
      else
        let r := popUntil v fuel stk'
        (current :: r.1, r.2)

mutual

/-- `strongConnect` of the Tarjan SCC traversal. -/
def strongConnect (graph : List (String × List String)) :
    Nat → String → TarjanState → TarjanState
  | 0, _, st => st
  | fuel + 1, v, st0 =>
    let i := st0.nextIndex
    let st1 : TarjanState :=
      { st0 with
        indices := assocSet st0.indices v i
        lowlinks := assocSet st0.lowlinks v i
        nextIndex := i + 1
        stack := st0.stack ++ [v]
        onStack := v :: st0.onStack }
    let st2 := visitNeighbors graph fuel v ((assocGet? graph v).getD []) st1
    if getNat st2.lowlinks v = getNat st2.indices v then
      let popped := popUntil v st2.stack.length st2.stack
      { st2 with
        stack := popped.2
        onStack := st2.onStack.filter (fun x => !(popped.1.contains x))
        comps := st2.comps ++ [popped.1] }
    else st2

/-- The neighbor loop of `strongConnect`: recurse into unvisited
neighbors, update lowlinks for on-stack ones. -/
def visitNeighbors (graph : List (String × List String)) :
    Nat → String → List String → TarjanState → TarjanState
  | 0, _, _, st => st
  | _ + 1, _, [], st => st
  | fuel + 1, v, w :: rest, st =>
    let st' :=
      if assocHas st.indices w then
        if st.onStack.contains w then
          { st with
            lowlinks := assocSet st.lowlinks v
              (min (getNat st.lowlinks v) (getNat st.indices w)) }
        else st
      else
        let stw := strongConnect graph fuel w st
        { stw with
          lowlinks := assocSet stw.lowlinks v
            (min (getNat stw.lowlinks v) (getNat stw.lowlinks w)) }
    visitNeighbors graph fuel v rest st'

end

/-- Run Tarjan from every unvisited node, in graph (= recipe insertion)
order, returning the component member lists in completion order. -/
def tarjanComponents (graph : List (String × List String)) (fuel : Nat) :
    List (List String) :=
  (graph.foldl (fun st e =>
    if assocHas st.indices e.1 then st else strongConnect graph fuel e.1 st)
    ⟨[], [], [], [], [], 0⟩).comps

/-- `#analyzeReactionGraph`: build the graph, partition it into SCCs, build
each component (inverting cyclic ones) and index members in
`#componentLookup`. -/
def analyzeReactionGraph (recipes : List (String × List Reagent)) :
    Except LabErr (List Component × List (String × Component)) := do
  let graph := reactionGraph recipes
  let fuel := (graph.length + graph.foldl (fun n e => n + e.2.length) 0 + 4) ^ 2
  let comps ← (tarjanComponents graph fuel).mapM (fun ps => createComponent recipes ps)
  let lookup := comps.foldl (fun lk c => c.products.foldl (fun lk p => assocSet lk p c) lk) []
  pure (comps, lookup)

/-- The `Laboratory` constructor: base inventory, then recipes, then graph
analysis, then initial stock — in exactly this order. -/
def mkLaboratory (knownSubstances : List String) (initialStock : List (String × ℚ))
    (reactions : List (String × List (ℚ × String))) : Except LabErr Lab := do
  let base ← buildBaseInventory knownSubstances
  let built ← buildRecipes base reactions
  let analysis ← analyzeReactionGraph built.2
  let inv ← applyInitialStock built.1 initialStock
  pure ⟨inv, built.2, analysis.1, analysis.2⟩

/-- `#resolveKnownSubstance`: a name must normalize and be tracked. -/
def resolveKnownSubstance (lab : Lab) (name : String) : Except LabErr String :=
  match normalizeName name with
  | none => .error (.typeErr "Invalid substance name")
  | some normalizedName =>
    if assocHas lab.inventory normalizedName then .ok normalizedName
    else .error (.refErr "Unknown substance")

/-- `getQuantity`. -/
def getQuantity (lab : Lab) (name : String) : Except LabErr ℚ :=
  (resolveKnownSubstance lab name).map (fun n => Stock.getQ lab.inventory n)

/-- `add`: resolve the name first, then validate the quantity, then bump
the inventory entry, returning the new total. -/
def add (lab : Lab) (name : String) (quantity : ℚ) : Except LabErr (ℚ × Lab) := do
  let normalizedName ← resolveKnownSubstance lab name
  let normalizedQuantity ← normalizeQuantity quantity
  let updatedQuantity := Stock.getQ lab.inventory normalizedName + normalizedQuantity
  pure (updatedQuantity,
    { lab with inventory := assocSet lab.inventory normalizedName updatedQuantity })

/-- The `recipe.reduce` of `#makeInternal`: fold `min` of
`stock / coefficient` over the reagents with nonzero coefficient, starting
from the requested quantity. -/
def achievableQuantity (recipe : List Reagent) (requestedQuantity : ℚ) (inv : Stock) : ℚ :=
  recipe.foldl (fun m reagent =>
    if reagent.quantity = 0 then m
    else min m (Stock.getQ inv reagent.substance / reagent.quantity)) requestedQuantity

/-- The consumption loop of `#makeInternal`: decrement each reagent's stock
by `coefficient × actual`. -/
def consumeReagents (recipe : List Reagent) (actualQuantity : ℚ) (inv : Stock) : Stock :=
  recipe.foldl (fun inv reagent =>
    assocSet inv reagent.substance
      (Stock.getQ inv reagent.substance - reagent.quantity * actualQuantity)) inv

/-- The commit step of `#makeInternal`: consume every reagent, then credit
the product — always together, never one without the other. -/
def commitProduction (productName : String) (recipe : List Reagent)
    (actualQuantity : ℚ) (inv : Stock) : Stock :=
  let consumed := consumeReagents recipe actualQuantity inv
  assocSet consumed productName (Stock.getQ consumed productName + actualQuantity)

/-- The demand vector of `#makeFromCyclicComponent`: the desired quantity
at the target's index, 0 elsewhere. -/
def demandVector (size targetIndex : Nat) (q : ℚ) : List ℚ :=
  (List.range size).map (fun i => if i = targetIndex then q else 0)

/-- Planned production per component member: gross need (from the cached
inverse), minus what existing stock can cover — for the target member only
the internally recirculated part may come from stock. -/
def plannedProduction (c : Component) (targetIndex : Nat) (desiredQuantity : ℚ)
    (inv : Stock) : List ℚ :=
  let totals := multiplyMatrixVector c.inverse
    (demandVector c.products.length targetIndex desiredQuantity)
  c.products.enum.map (fun ip =>
    let needed := totals.getD ip.1 0
    let available := Stock.getQ inv ip.2
    let targetDemand := if ip.1 = targetIndex then desiredQuantity else 0
    let internalDemand := max 0 (needed - targetDemand)
    let usableFromStock :=
      if ip.1 = targetIndex then min available internalDemand
      else min available needed
    needed - usableFromStock)

/-- Accumulate one external requirement (JS `Map` upsert that adds). -/
def addExternalReq (reqs : List (String × ℚ)) (s : String) (amount : ℚ) :
    List (String × ℚ) :=
  match assocGet? reqs s with
  | some existing => assocSet reqs s (existing + amount)
  | none => reqs ++ [(s, amount)]

/-- Total out-of-component reagent needs of the planned production, in
first-encounter order, skipping members with zero planned production and
zero individual amounts. -/
def cyclicExternalReqs (recipes : List (String × List Reagent)) (c : Component)
    (planned : List ℚ) : List (String × ℚ) :=
  c.products.enum.foldl (fun reqs ip =>
    let produced := planned.getD ip.1 0
    if produced = 0 then reqs
    else ((assocGet? recipes ip.2).getD []).foldl (fun reqs reagent =>
      if c.products.contains reagent.substance then reqs
      else
        let amount := reagent.quantity * produced
        if amount = 0 then reqs else addExternalReq reqs reagent.substance amount) reqs) []

/-- The scale factor of `#makeFromCyclicComponent`: fold `min` of
`available / amount` over the external requirements, starting from 1 and
skipping zero amounts. -/
def cyclicScale (reqs : List (String × ℚ)) (inv : Stock) : ℚ :=
  reqs.foldl (fun scale sa =>
    if sa.2 = 0 then scale else min scale (Stock.getQ inv sa.1 / sa.2)) 1

/-- Credit each component member with its scaled planned production. -/
def applyCyclicIncrements (c : Component) (scaledPlan : List ℚ) (inv : Stock) : Stock :=
  c.products.enum.foldl (fun inv ip =>
    let produced := scaledPlan.getD ip.1 0
    if produced = 0 then inv
    else assocSet inv ip.2 (Stock.getQ inv ip.2 + produced)) inv

/-- The JS literal `1e-12` is the nearest double to 10⁻¹²; the embedding
uses exact 10⁻¹², which classifies every residue exercised here
identically. -/
def snapThreshold : ℚ := 1 / 10 ^ 12

/-- Debit every producing member's reagents (internal ones included),
snapping residues smaller than the threshold to exactly 0. -/
def applyCyclicDecrements (recipes : List (String × List Reagent)) (c : Component)
    (scaledPlan : List ℚ) (inv : Stock) : Stock :=
  c.products.enum.foldl (fun inv ip =>
    let produced := scaledPlan.getD ip.1 0
    if produced = 0 then inv
    else ((assocGet? recipes ip.2).getD []).foldl (fun inv reagent =>
      let consumption := reagent.quantity * produced
      if consumption = 0 then inv
      else
        let updated := Stock.getQ inv reagent.substance - consumption
        assocSet inv reagent.substance
          (if |updated| < snapThreshold then 0 else updated)) inv) inv

mutual

/-- `#makeInternal`: dispatch to the cyclic resolver when the product's
component is cyclic, otherwise run the acyclic recursive path. -/
def makeInternal (lab : Lab) :
    Nat → String → ℚ → List String → Stock → Except LabErr (ℚ × Stock)
  | 0, _, _, _, _ => .error .fuelErr
  | fuel + 1, productName, requestedQuantity, stack, inv =>
    match assocGet? lab.componentLookup productName with
    | some comp =>
      if comp.isCyclic then
        makeFromCyclicComponent lab fuel comp productName requestedQuantity inv
      else makeAcyclic lab fuel productName requestedQuantity stack inv
    | none => makeAcyclic lab fuel productName requestedQuantity stack inv

/-- The acyclic body of `#makeInternal`: guard against re-entry, top up
every reagent, compute the achievable output, and commit atomically when
it is positive. -/
def makeAcyclic (lab : Lab) :
    Nat → String → ℚ → List String → Stock → Except LabErr (ℚ × Stock)
  | 0, _, _, _, _ => .error .fuelErr
  | fuel + 1, productName, requestedQuantity, stack, inv =>
    if stack.contains productName then
      .error (.rangeErr "Circular reaction detected while producing")
    else
      match assocGet? lab.recipes productName with
      | none => .ok (0, inv)
      | some recipe =>
        match topUpReagents lab fuel recipe requestedQuantity (productName :: stack) inv with
        | .error e => .error e
        | .ok inv1 =>
          let actualQuantity := achievableQuantity recipe requestedQuantity inv1
          if actualQuantity ≤ 0 then .ok (0, inv1)
          else .ok (actualQuantity, commitProduction productName recipe actualQuantity inv1)

/-- The `recipe.forEach` top-up loop of `#makeInternal`. -/
def topUpReagents (lab : Lab) :
    Nat → List Reagent → ℚ → List String → Stock → Except LabErr Stock
  | 0, _, _, _, _ => .error .fuelErr
  | _ + 1, [], _, _, inv => .ok inv
  | fuel + 1, reagent :: rest, requestedQuantity, stack, inv =>
    match ensureReagentAvailability lab fuel reagent.substance
        (reagent.quantity * requestedQuantity) stack inv with
    | .error e => .error e
    | .ok inv1 => topUpReagents lab fuel rest requestedQuantity stack inv1

/-- `#ensureReagentAvailability`: recursively produce the shortfall when
the substance is producible. -/
def ensureReagentAvailability (lab : Lab) :
    Nat → String → ℚ → List String → Stock → Except LabErr Stock
  | 0, _, _, _, _ => .error .fuelErr
  | fuel + 1, substanceName, requiredQuantity, stack, inv =>
    let current := Stock.getQ inv substanceName
    let missing := requiredQuantity - current
    if missing ≤ 0 then .ok inv
    else if !(assocHas lab.recipes substanceName) then .ok inv
    else
      match makeInternal lab fuel substanceName missing stack inv with
      | .error e => .error e
      | .ok r => .ok r.2

/-- `#makeFromCyclicComponent`: demand vector → gross totals → planned
production → external requirements → top-up → scale → apply. -/
def makeFromCyclicComponent (lab : Lab) :
    Nat → Component → String → ℚ → Stock → Except LabErr (ℚ × Stock)
  | 0, _, _, _, _ => .error .fuelErr
  | fuel + 1, comp, productName, desiredQuantity, inv =>
    if desiredQuantity ≤ 0 then .ok (0, inv)
    else
      match comp.products.indexOf? productName with
      | none => .ok (0, inv)
      | some targetIndex =>
        let planned := plannedProduction comp targetIndex desiredQuantity inv
        let externalReqs := cyclicExternalReqs lab.recipes comp planned
        if externalReqs.length = 0 then .ok (0, inv)
        else
          match ensureExternals lab fuel externalReqs inv with
          | .error e => .error e
          | .ok inv1 =>
            let scale := cyclicScale externalReqs inv1
            if scale ≤ 0 then .ok (0, inv1)
            else
              let scaledPlan := planned.map (fun v => v * scale)
              let inv2 := applyCyclicIncrements comp scaledPlan inv1
              let inv3 := applyCyclicDecrements lab.recipes comp scaledPlan inv2
              .ok (desiredQuantity * scale, inv3)

/-- The `externalRequirements.forEach` top-up loop (fresh guard set per
call, as in the JS). -/
def ensureExternals (lab : Lab) :
    Nat → List (String × ℚ) → Stock → Except LabErr Stock
  | 0, _, _ => .error .fuelErr
  | _ + 1, [], inv => .ok inv
  | fuel + 1, sa :: rest, inv =>
    match ensureReagentAvailability lab fuel sa.1 sa.2 [] inv with
    | .error e => .error e
    | .ok inv1 => ensureExternals lab fuel rest inv1

end

/-- Fuel budget below the two outermost frames; generous enough that no
run exercised in this development exhausts it. -/
def labFuelCore (lab : Lab) : Nat :=
  (lab.recipes.foldl (fun n e => n + e.2.length + 1) 0 + lab.componentLookup.length + 8) ^ 3

/-- Fuel supplied by `make` (two successor layers so that the first two
frames unfold definitionally). -/
def labFuel (lab : Lab) : Nat := labFuelCore lab + 2

/-- `make`: normalize the product name, validate the quantity, return 0 for
a zero request or an unknown recipe, otherwise run `#makeInternal`. -/
def make (lab : Lab) (productName : String) (desiredQuantity : ℚ) :
    Except LabErr (ℚ × Lab) :=
  match normalizeName productName with
  | none => .error (.typeErr "Invalid substance name")
  | some normalizedProduct =>
    match normalizeQuantity desiredQuantity with
    | .error e => .error e
    | .ok requestedQuantity =>
      if requestedQuantity = 0 then .ok (0, lab)
      else if !(assocHas lab.recipes normalizedProduct) then .ok (0, lab)
      else
        match makeInternal lab (labFuel lab) normalizedProduct requestedQuantity [] lab.inventory with
        | .error e => .error e
        | .ok r => .ok (r.1, { lab with inventory := r.2 })

/-- `true` when the product's component (if any) is tagged acyclic, i.e.
`#makeInternal` takes the acyclic path. -/
def acyclicIn (lab : Lab) (p : String) : Bool :=
  match assocGet? lab.componentLookup p with
  | some c => !c.isCyclic
  | none => true

/-- Specification-side cap: the minimum, over the reagents with positive
coefficient, of `stock / coefficient`, capped at the requested quantity;
a zero coefficient contributes no term. -/
def specCap (recipe : List Reagent) (q : ℚ) (inv : Stock) : ℚ :=
  ((recipe.filter (fun r => decide (0 < r.quantity))).map
    (fun r => Stock.getQ inv r.substance / r.quantity)).foldr min q

theorem assocGet?_assocSet_self {α : Type} (l : List (String × α)) (k : String) (v : α) :
    assocGet? (assocSet l k v) k = some v := by
  induction l with
  | nil => simp [assocSet, assocGet?]
  | cons h t ih =>
    obtain ⟨k', w⟩ := h
    by_cases hk : k' = k
    · simp [assocSet, hk, assocGet?]
    · simp [assocSet, hk, assocGet?, ih]

theorem assocGet?_assocSet_ne {α : Type} (l : List (String × α)) (k k' : String) (v : α)
    (h : k' ≠ k) : assocGet? (assocSet l k v) k' = assocGet? l k' := by
  induction l with
  | nil => simp [assocSet, assocGet?, Ne.symm h]
  | cons hd t ih =>
    obtain ⟨k0, w⟩ := hd
    by_cases hk : k0 = k
    · subst hk
      simp [assocSet, assocGet?, h, Ne.symm h]
    · by_cases hk' : k0 = k'
      · simp [assocSet, hk, assocGet?, hk', h]
      · simp [assocSet, hk, assocGet?, hk', ih]

theorem getQ_assocSet_self (inv : Stock) (k : String) (v : ℚ) :
    Stock.getQ (assocSet inv k v) k = v := by
  simp [Stock.getQ, assocGet?_assocSet_self]

theorem getQ_assocSet_ne (inv : Stock) (k k' : String) (v : ℚ) (h : k' ≠ k) :
    Stock.getQ (assocSet inv k v) k' = Stock.getQ inv k' := by
  simp [Stock.getQ, assocGet?_assocSet_ne _ _ _ _ h]

theorem getQ_consumeReagents_notMem (recipe : List Reagent) (a : ℚ) (inv : Stock)
    (s : String) (h : s ∉ recipe.map (fun r => r.substance)) :
    Stock.getQ (consumeReagents recipe a inv) s = Stock.getQ inv s := by
  induction recipe generalizing inv with
  | nil => rfl
  | cons r rest ih =>
    simp only [List.map_cons, List.mem_cons, not_or] at h
    simp only [consumeReagents, List.foldl_cons]
    rw [show (List.foldl _ _ rest : Stock) = consumeReagents rest a
      (assocSet inv r.substance (Stock.getQ inv r.substance - r.quantity * a)) from rfl]
    rw [ih _ h.2, getQ_assocSet_ne _ _ _ _ h.1]

theorem getQ_consumeReagents_mem (recipe : List Reagent) (a : ℚ) (inv : Stock)
    (hnd : (recipe.map (fun r => r.substance)).Nodup) (r : Reagent) (hr : r ∈ recipe) :
    Stock.getQ (consumeReagents recipe a inv) r.substance =
      Stock.getQ inv r.substance - r.quantity * a := by
  induction recipe generalizing inv with
  | nil => cases hr
  | cons hd rest ih =>
    simp only [List.map_cons, List.nodup_cons] at hnd
    simp only [consumeReagents, List.foldl_cons]
    rw [show (List.foldl _ _ rest : Stock) = consumeReagents rest a
      (assocSet inv hd.substance (Stock.getQ inv hd.substance - hd.quantity * a)) from rfl]
    rcases List.mem_cons.1 hr with hEq | hMem
    · subst hEq
      rw [getQ_consumeReagents_notMem _ _ _ _ hnd.1, getQ_assocSet_self]
    · have hne : r.substance ≠ hd.substance := by
        intro hcontra
        exact hnd.1 (hcontra ▸ List.mem_map_of_mem (fun x => x.substance) hMem)
      rw [ih _ hnd.2 hMem, getQ_assocSet_ne _ _ _ _ hne]

theorem getQ_commitProduction_product (p : String) (recipe : List Reagent) (a : ℚ)
    (inv : Stock) (hp : p ∉ recipe.map (fun r => r.substance)) :
    Stock.getQ (commitProduction p recipe a inv) p = Stock.getQ inv p + a := by
  simp only [commitProduction]
  rw [getQ_assocSet_self, getQ_consumeReagents_notMem _ _ _ _ hp]

theorem getQ_commitProduction_reagent (p : String) (recipe : List Reagent) (a : ℚ)
    (inv : Stock) (hnd : (recipe.map (fun r => r.substance)).Nodup)
    (hp : p ∉ recipe.map (fun r => r.substance)) (r : Reagent) (hr : r ∈ recipe) :
    Stock.getQ (commitProduction p recipe a inv) r.substance =
      Stock.getQ inv r.substance - r.quantity * a := by
  have hne : r.substance ≠ p := by
    intro hcontra
    exact hp (hcontra ▸ List.mem_map_of_mem (fun x => x.substance) hr)
  simp only [commitProduction]
  rw [getQ_assocSet_ne _ _ _ _ hne, getQ_consumeReagents_mem _ _ _ hnd _ hr]

theorem achievableQuantity_min_comm (recipe : List Reagent) (inv : Stock) (q x : ℚ) :
    achievableQuantity recipe (min q x) inv = min (achievableQuantity recipe q inv) x := by
  induction recipe generalizing q with
  | nil => rfl
  | cons r rest ih =>
    simp only [achievableQuantity, List.foldl_cons]
    by_cases h0 : r.quantity = 0
    · simp only [h0, if_pos rfl]
      exact ih q
    · simp only [h0, if_neg h0]
      rw [show min (min q x) (Stock.getQ inv r.substance / r.quantity) =
        min (min q (Stock.getQ inv r.substance / r.quantity)) x by
          rw [min_assoc, min_assoc, min_comm x]]
      exact ih _

theorem achievableQuantity_eq_specCap (recipe : List Reagent) (q : ℚ) (inv : Stock)
    (hpos : ∀ r ∈ recipe, 0 ≤ r.quantity) :
    achievableQuantity recipe q inv = specCap recipe q inv := by
  induction recipe generalizing q with
  | nil => rfl
  | cons r rest ih =>
    have hrest : ∀ x ∈ rest, 0 ≤ x.quantity := fun x hx => hpos x (List.mem_cons_of_mem _ hx)
    by_cases h0 : r.quantity = 0
    · have hnotpos : ¬ (0 < r.quantity) := by rw [h0]; exact lt_irrefl 0
      simp only [achievableQuantity, List.foldl_cons, if_pos h0, specCap,
        List.filter_cons, decide_eq_true_eq, hnotpos, if_false]
      exact ih q hrest
    · have hposr : 0 < r.quantity := lt_of_le_of_ne (hpos r (List.mem_cons_self r rest)) (Ne.symm h0)
      simp only [achievableQuantity, List.foldl_cons, if_neg h0, specCap,
        List.filter_cons, decide_eq_true_eq, hposr, if_true, List.map_cons, List.foldr_cons]
      rw [show (List.foldl _ (min q (Stock.getQ inv r.substance / r.quantity)) rest : ℚ) =
        achievableQuantity rest (min q (Stock.getQ inv r.substance / r.quantity)) inv from rfl]
      rw [achievableQuantity_min_comm, ih q hrest, min_comm]
      rfl

theorem foldr_min_nonneg (l : List ℚ) (q : ℚ) (hq : 0 ≤ q) (hl : ∀ x ∈ l, 0 ≤ x) :
    0 ≤ l.foldr min q := by
  induction l with
  | nil => exact hq
  | cons x rest ih =>
    simp only [List.foldr_cons]
    exact le_min (hl x (List.mem_cons_self x rest))
      (ih (fun y hy => hl y (List.mem_cons_of_mem _ hy)))

theorem specCap_nonneg (recipe : List Reagent) (q : ℚ) (inv : Stock) (hq : 0 ≤ q)
    (hs : ∀ r ∈ recipe, 0 < r.quantity → 0 ≤ Stock.getQ inv r.substance) :
    0 ≤ specCap recipe q inv := by
  apply foldr_min_nonneg _ _ hq
  intro x hx
  simp only [List.mem_map, List.mem_filter] at hx
  obtain ⟨r, ⟨hrmem, hrpos⟩, rfl⟩ := hx
  have hrpos' : 0 < r.quantity := of_decide_eq_true hrpos
  exact div_nonneg (hs r hrmem hrpos') hrpos'.le

theorem normalizeQuantity_of_nonneg (q : ℚ) (h : 0 ≤ q) : normalizeQuantity q = .ok q := by
  simp [normalizeQuantity, not_lt.2 h]

theorem makeInternal_acyclic_dispatch (lab : Lab) (fuel : Nat) (p : String) (q : ℚ)
    (stack : List String) (inv : Stock) (h : acyclicIn lab p = true) :
    makeInternal lab (fuel + 1) p q stack inv = makeAcyclic lab fuel p q stack inv := by
  rw [acyclicIn] at h
  simp only [makeInternal]
  cases hc : assocGet? lab.componentLookup p with
  | none => simp
  | some c =>
    rw [hc] at h
    simp only [Bool.not_eq_true'] at h
    simp [h]

theorem makeAcyclic_run (lab : Lab) (fuel : Nat) (p : String) (q : ℚ)
    (stack : List String) (inv : Stock) (a : ℚ) (inv2 : Stock) (recipe : List Reagent)
    (hstack : stack.contains p = false)
    (hrec : assocGet? lab.recipes p = some recipe)
    (hrun : makeAcyclic lab (fuel + 1) p q stack inv = .ok (a, inv2)) :
    ∃ inv1, topUpReagents lab fuel recipe q (p :: stack) inv = .ok inv1 ∧
      ((achievableQuantity recipe q inv1 ≤ 0 ∧ a = 0 ∧ inv2 = inv1) ∨
       (0 < achievableQuantity recipe q inv1 ∧ a = achievableQuantity recipe q inv1 ∧
        inv2 = commitProduction p recipe a inv1)) := by
  simp only [makeAcyclic, hstack, Bool.false_eq_true, if_false, hrec] at hrun
  cases htop : topUpReagents lab fuel recipe q (p :: stack) inv with
  | error e =>
    rw [htop] at hrun
    cases hrun
  | ok inv1 =>
    rw [htop] at hrun
    simp only at hrun
    refine ⟨inv1, rfl, ?_⟩
    by_cases hach : achievableQuantity recipe q inv1 ≤ 0
    · rw [if_pos hach] at hrun
      simp only [Except.ok.injEq, Prod.mk.injEq] at hrun
      exact Or.inl ⟨hach, hrun.1.symm, hrun.2.symm⟩
    · rw [if_neg hach] at hrun
      simp only [Except.ok.injEq, Prod.mk.injEq] at hrun
      refine Or.inr ⟨lt_of_not_le hach, hrun.1.symm, ?_⟩
      rw [← hrun.2, hrun.1]

theorem make_run (lab : Lab) (p p' : String) (q a : ℚ) (lab' : Lab)
    (hname : normalizeName p = some p') (hq : 0 < q)
    (hhas : assocHas lab.recipes p' = true)
    (hmake : make lab p q = .ok (a, lab')) :
    makeInternal lab (labFuelCore lab + 2) p' q [] lab.inventory = .ok (a, lab'.inventory) ∧
    lab'.recipes = lab.recipes ∧ lab'.components = lab.components ∧
    lab'.componentLookup = lab.componentLookup := by
  simp only [make, hname, normalizeQuantity_of_nonneg q hq.le, hq.ne', if_false, hhas,
    Bool.not_true, Bool.false_eq_true] at hmake
  cases hmi : makeInternal lab (labFuel lab) p' q [] lab.inventory with
  | error e =>
    rw [hmi] at hmake
    cases hmake
  | ok r =>
    obtain ⟨ra, rinv⟩ := r
    rw [hmi] at hmake
    simp only [Except.ok.injEq, Prod.mk.injEq] at hmake
    rw [labFuel] at hmi
    obtain ⟨h1, h2⟩ := hmake
    subst h1
    subst h2
    exact ⟨hmi, rfl, rfl, rfl⟩

/-- The reagent-limited example laboratory of the spec: stock
`{stardust: 5}` and recipe `gem = [(2, stardust)]`. -/
def gemLaboratory : Except LabErr Lab :=
  mkLaboratory ["stardust"] [("stardust", 5)] [("gem", [(2, "stardust")])]

/-- The constructed gem laboratory as a value. -/
def gemLab : Lab := gemLaboratory.toOption.getD ⟨[], [], [], []⟩

/-- The gem laboratory after `make("gem", 4)`. -/
def gemLabAfter : Lab :=
  ((make gemLab "gem" 4).toOption.getD (0, ⟨[], [], [], []⟩)).2

/-- Claim C2: for an acyclic product with a recipe, the quantity that
`make(p, q)` actually produces equals the minimum, over the reagents with
positive coefficient, of post-top-up stock divided by coefficient, capped
at `q` (`specCap`); a zero coefficient imposes no cap.  Concretely, with
stock `{stardust: 5}` and `gem = [(2, stardust)]`, `make("gem", 4)`
returns 5/2 and leaves stardust at 0. -/
theorem C2_acyclic_output_cap :
    (∀ (lab : Lab) (p p' : String) (q a : ℚ) (lab' : Lab)
        (recipe : List Reagent) (inv1 : Stock),
      normalizeName p = some p' →
      assocGet? lab.recipes p' = some recipe →
      acyclicIn lab p' = true →
      0 < q →
      (∀ r ∈ recipe, 0 ≤ r.quantity) →
      make lab p q = .ok (a, lab') →
      topUpReagents lab (labFuelCore lab) recipe q [p'] lab.inventory = .ok inv1 →
      (∀ r ∈ recipe, 0 < r.quantity → 0 ≤ Stock.getQ inv1 r.substance) →
      a = specCap recipe q inv1) ∧
    gemLaboratory.bind (fun lab => (make lab "gem" 4).map
      (fun r => (r.1, Stock.getQ r.2.inventory "stardust"))) = .ok (5/2, 0) := by
  constructor
  · intro lab p p' q a lab' recipe inv1 hname hrec hacyc hq hcoef hmake htop hstock
    have hhas : assocHas lab.recipes p' = true := by simp [assocHas, hrec]
    obtain ⟨hmi, -, -, -⟩ := make_run lab p p' q a lab' hname hq hhas hmake
    rw [show labFuelCore lab + 2 = (labFuelCore lab + 1) + 1 from rfl] at hmi
    rw [makeInternal_acyclic_dispatch lab (labFuelCore lab + 1) p' q [] lab.inventory hacyc] at hmi
    obtain ⟨inv1', htop', hcases⟩ :=
      makeAcyclic_run lab (labFuelCore lab) p' q [] lab.inventory a lab'.inventory recipe
        rfl hrec hmi
    have hinv : inv1' = inv1 := by
      have := htop.symm.trans htop'
      simpa using this.symm
    subst hinv
    have hscap : achievableQuantity recipe q inv1' = specCap recipe q inv1' :=
      achievableQuantity_eq_specCap recipe q inv1' hcoef
    rcases hcases with ⟨hach, ha, -⟩ | ⟨-, ha, -⟩
    · have h0 : 0 ≤ specCap recipe q inv1' := specCap_nonneg recipe q inv1' hq.le hstock
      rw [ha, hscap.symm.trans (le_antisymm hach (hscap ▸ h0))]
    · rw [ha, hscap]
  · with_unfolding_all rfl

/-- Witness for C2 at the gem laboratory: every hypothesis holds there and
`make("gem", 4)` produces exactly `specCap` = 5/2. -/
theorem C2_acyclic_output_cap_witness :
    normalizeName "gem" = some "gem" ∧
    assocGet? gemLab.recipes "gem" = some [⟨2, "stardust"⟩] ∧
    acyclicIn gemLab "gem" = true ∧
    (0 : ℚ) < 4 ∧
    (∀ r ∈ [(⟨2, "stardust"⟩ : Reagent)], 0 ≤ r.quantity) ∧
    make gemLab "gem" 4 = .ok (5/2, gemLabAfter) ∧
    topUpReagents gemLab (labFuelCore gemLab) [⟨2, "stardust"⟩] 4 ["gem"]
      gemLab.inventory = .ok gemLab.inventory ∧
    (∀ r ∈ [(⟨2, "stardust"⟩ : Reagent)], 0 < r.quantity →
      0 ≤ Stock.getQ gemLab.inventory r.substance) ∧
    (5/2 : ℚ) = specCap [⟨2, "stardust"⟩] 4 gemLab.inventory := by
  refine ⟨by with_unfolding_all rfl, by with_unfolding_all rfl, by with_unfolding_all rfl,
    by norm_num, ?_, by with_unfolding_all rfl, by with_unfolding_all rfl, ?_, ?_⟩
  · intro r hr
    rw [List.mem_singleton] at hr
    subst hr
    norm_num
  · intro r hr hpos
    rw [List.mem_singleton] at hr
    subst hr
    with_unfolding_all decide
  · exact C2_acyclic_output_cap.1 gemLab "gem" "gem" 4 (5/2) gemLabAfter
      [⟨2, "stardust"⟩] gemLab.inventory
      (by with_unfolding_all rfl) (by with_unfolding_all rfl) (by with_unfolding_all rfl)
      (by norm_num)
      (by intro r hr; rw [List.mem_singleton] at hr; subst hr; norm_num)
      (by with_unfolding_all rfl) (by with_unfolding_all rfl)
      (by intro r hr hpos; rw [List.mem_singleton] at hr; subst hr; with_unfolding_all decide)

/-- The nested-products example laboratory of the spec: stock
`{stardust: 4, moonwater: 2}`, `elixir = [(2, stardust), (1, moonwater)]`,
`potion = [(1, elixir)]`. -/
def nestedLaboratory : Except LabErr Lab :=
  mkLaboratory ["stardust", "moonwater"] [("stardust", 4), ("moonwater", 2)]
    [("elixir", [(2, "stardust"), (1, "moonwater")]), ("potion", [(1, "elixir")])]

/-- Counterexample to claim C1 as stated: `make("potion", 2)` returns 2,
and elixir — a reagent of potion with coefficient 1, holding 0 before the
call — holds 0 after the call as well (the top-up phase first produced 2),
not `0 − 1×2 = −2` as the claim's before/after balance would require. -/
theorem C1_counterexample :
    nestedLaboratory.bind (fun lab => (make lab "potion" 2).map
      (fun r => (r.1, Stock.getQ r.2.inventory "elixir", Stock.getQ lab.inventory "elixir")))
      = .ok (2, 0, 0) ∧ (0 : ℚ) ≠ 0 - 1 * 2 := by
  constructor
  · with_unfolding_all rfl
  · norm_num

/-- Claim C1 (amended): for an acyclic product whose recipe lists distinct
reagents not including the product itself, if `make(p, q)` returns `a`
then, relative to the inventory as it stands after the reagent top-up
phase, each reagent's stock is decremented by exactly `coefficient × a`
and the product's stock is incremented by exactly `a` (the original
before-the-call phrasing fails because top-up production of reagents
persists, as the counterexample shows). -/
theorem C1_mass_balance_amended :
    ∀ (lab : Lab) (p p' : String) (q a : ℚ) (lab' : Lab)
      (recipe : List Reagent) (inv1 : Stock),
      normalizeName p = some p' →
      assocGet? lab.recipes p' = some recipe →
      acyclicIn lab p' = true →
      0 < q →
      (recipe.map (fun r => r.substance)).Nodup →
      p' ∉ recipe.map (fun r => r.substance) →
      make lab p q = .ok (a, lab') →
      topUpReagents lab (labFuelCore lab) recipe q [p'] lab.inventory = .ok inv1 →
      (∀ r ∈ recipe, Stock.getQ lab'.inventory r.substance =
        Stock.getQ inv1 r.substance - r.quantity * a) ∧
      Stock.getQ lab'.inventory p' = Stock.getQ inv1 p' + a := by
  intro lab p p' q a lab' recipe inv1 hname hrec hacyc hq hnd hp hmake htop
  have hhas : assocHas lab.recipes p' = true := by simp [assocHas, hrec]
  obtain ⟨hmi, -, -, -⟩ := make_run lab p p' q a lab' hname hq hhas hmake
  rw [show labFuelCore lab + 2 = (labFuelCore lab + 1) + 1 from rfl] at hmi
  rw [makeInternal_acyclic_dispatch lab (labFuelCore lab + 1) p' q [] lab.inventory hacyc] at hmi
  obtain ⟨inv1', htop', hcases⟩ :=
    makeAcyclic_run lab (labFuelCore lab) p' q [] lab.inventory a lab'.inventory recipe
      rfl hrec hmi
  have hinv : inv1' = inv1 := by
    have := htop.symm.trans htop'
    simpa using this.symm
  subst hinv
  rcases hcases with ⟨-, ha, hinv2⟩ | ⟨-, ha, hinv2⟩
  · subst ha
    rw [hinv2]
    exact ⟨fun r _ => by ring_nf, by simp⟩
  · subst ha
    rw [hinv2]
    exact ⟨fun r hr => getQ_commitProduction_reagent p' recipe _ inv1' hnd hp r hr,
      getQ_commitProduction_product p' recipe _ inv1' hp⟩

/-- Witness for the amended C1 at the gem laboratory: `make("gem", 4)`
returns 5/2, stardust ends at `5 − 2×(5/2)` and gem at `0 + 5/2`. -/
theorem C1_mass_balance_amended_witness :
    normalizeName "gem" = some "gem" ∧
    assocGet? gemLab.recipes "gem" = some [⟨2, "stardust"⟩] ∧
    acyclicIn gemLab "gem" = true ∧
    (0 : ℚ) < 4 ∧
    ([(⟨2, "stardust"⟩ : Reagent)].map (fun r => r.substance)).Nodup ∧
    "gem" ∉ [(⟨2, "stardust"⟩ : Reagent)].map (fun r => r.substance) ∧
    make gemLab "gem" 4 = .ok (5/2, gemLabAfter) ∧
    topUpReagents gemLab (labFuelCore gemLab) [⟨2, "stardust"⟩] 4 ["gem"]
      gemLab.inventory = .ok gemLab.inventory ∧
    ((∀ r ∈ [(⟨2, "stardust"⟩ : Reagent)], Stock.getQ gemLabAfter.inventory r.substance =
        Stock.getQ gemLab.inventory r.substance - r.quantity * (5/2)) ∧
      Stock.getQ gemLabAfter.inventory "gem" = Stock.getQ gemLab.inventory "gem" + 5/2) := by
  refine ⟨by with_unfolding_all rfl, by with_unfolding_all rfl, by with_unfolding_all rfl,
    by norm_num, by decide, by decide, by with_unfolding_all rfl, by with_unfolding_all rfl, ?_⟩
  exact C1_mass_balance_amended gemLab "gem" "gem" 4 (5/2) gemLabAfter
    [⟨2, "stardust"⟩] gemLab.inventory
    (by with_unfolding_all rfl) (by with_unfolding_all rfl) (by with_unfolding_all rfl)
    (by norm_num) (by decide) (by decide)
    (by with_unfolding_all rfl) (by with_unfolding_all rfl)

/-- A laboratory where a top-up succeeds for one reagent but the other
reagent (raw, stock 0) caps production at 0: raw substances `r`, `t` with
`{t: 5}`, recipes `p = [(1, r), (1, s)]` and `s = [(1, t)]`. -/
def partialTopupLaboratory : Except LabErr Lab :=
  mkLaboratory ["r", "t"] [("t", 5)] [("p", [(1, "r"), (1, "s")]), ("s", [(1, "t")])]

/-- The constructed partial-topup laboratory as a value. -/
def partialLab : Lab := partialTopupLaboratory.toOption.getD ⟨[], [], [], []⟩

/-- The partial-topup laboratory after `make("p", 1)`. -/
def partialLabAfter : Lab :=
  ((make partialLab "p" 1).toOption.getD (0, ⟨[], [], [], []⟩)).2

/-- Counterexample to claim C4 as stated: `make("p", 1)` returns 0, yet the
call is not inventory-neutral — the recursive top-up that produced reagent
`s` persists: `t` drops from 5 to 4 and `s` rises from 0 to 1. -/
theorem C4_counterexample :
    partialTopupLaboratory.bind (fun lab => (make lab "p" 1).map
      (fun res => (res.1, Stock.getQ res.2.inventory "t", Stock.getQ lab.inventory "t",
        Stock.getQ res.2.inventory "s")))
      = .ok (0, 4, 5, 1) ∧ (4 : ℚ) ≠ 5 :=
  ⟨by with_unfolding_all rfl, by norm_num⟩

/-- Claim C4 (amended): on the acyclic path the final decrement/increment
commit is atomic — `make(p, q)` either returns 0 and leaves the inventory
exactly as the reagent top-up phase left it (so top-up mutations persist,
contrary to the original claim), or returns `a > 0` and applies the full
commit to that post-top-up inventory. -/
theorem C4_commit_atomicity_amended :
    ∀ (lab : Lab) (p p' : String) (q a : ℚ) (lab' : Lab)
      (recipe : List Reagent) (inv1 : Stock),
      normalizeName p = some p' →
      assocGet? lab.recipes p' = some recipe →
      acyclicIn lab p' = true →
      0 < q →
      make lab p q = .ok (a, lab') →
      topUpReagents lab (labFuelCore lab) recipe q [p'] lab.inventory = .ok inv1 →
      (a = 0 ∧ lab'.inventory = inv1) ∨
      (0 < a ∧ lab'.inventory = commitProduction p' recipe a inv1) := by
  intro lab p p' q a lab' recipe inv1 hname hrec hacyc hq hmake htop
  have hhas : assocHas lab.recipes p' = true := by simp [assocHas, hrec]
  obtain ⟨hmi, -, -, -⟩ := make_run lab p p' q a lab' hname hq hhas hmake
  rw [show labFuelCore lab + 2 = (labFuelCore lab + 1) + 1 from rfl] at hmi
  rw [makeInternal_acyclic_dispatch lab (labFuelCore lab + 1) p' q [] lab.inventory hacyc] at hmi
  obtain ⟨inv1', htop', hcases⟩ :=
    makeAcyclic_run lab (labFuelCore lab) p' q [] lab.inventory a lab'.inventory recipe
      rfl hrec hmi
  have hinv : inv1' = inv1 := by
    have := htop.symm.trans htop'
    simpa using this.symm
  subst hinv
  rcases hcases with ⟨-, ha, hinv2⟩ | ⟨hpos, ha, hinv2⟩
  · exact Or.inl ⟨ha, hinv2⟩
  · exact Or.inr ⟨ha ▸ hpos, hinv2⟩

/-- Witness for the amended C4 at the partial-topup laboratory, where the
returned quantity is 0 and the inventory equals the post-top-up one. -/
theorem C4_commit_atomicity_amended_witness :
    normalizeName "p" = some "p" ∧
    assocGet? partialLab.recipes "p" = some [⟨1, "r"⟩, ⟨1, "s"⟩] ∧
    acyclicIn partialLab "p" = true ∧
    (0 : ℚ) < 1 ∧
    make partialLab "p" 1 = .ok (0, partialLabAfter) ∧
    topUpReagents partialLab (labFuelCore partialLab) [⟨1, "r"⟩, ⟨1, "s"⟩] 1 ["p"]
      partialLab.inventory = .ok partialLabAfter.inventory ∧
    (((0 : ℚ) = 0 ∧ partialLabAfter.inventory = partialLabAfter.inventory) ∨
      ((0 : ℚ) < 0 ∧ partialLabAfter.inventory =
        commitProduction "p" [⟨1, "r"⟩, ⟨1, "s"⟩] 0 partialLabAfter.inventory)) := by
  refine ⟨by with_unfolding_all rfl, by with_unfolding_all rfl, by with_unfolding_all rfl,
    by norm_num, by with_unfolding_all rfl, by with_unfolding_all rfl, ?_⟩
  exact C4_commit_atomicity_amended partialLab "p" "p" 1 0 partialLabAfter
    [⟨1, "r"⟩, ⟨1, "s"⟩] partialLabAfter.inventory
    (by with_unfolding_all rfl) (by with_unfolding_all rfl) (by with_unfolding_all rfl)
    (by norm_num) (by with_unfolding_all rfl) (by with_unfolding_all rfl)

/-- The gem laboratory after `add("stardust", 1)`. -/
def gemLabAdd : Lab :=
  ((add gemLab "stardust" 1).toOption.getD (0, ⟨[], [], [], []⟩)).2

/-- Claim C9: after construction, every successful `make` or `add` leaves
the recipe table, the component list (SCC partition, cyclic tags, cached
inverses) and the component lookup untouched — the inventory field is the
only thing either operation rewrites (`getQuantity` returns a number and
no state at all). -/
theorem C9_structure_frame :
    (∀ (lab : Lab) (p : String) (q a : ℚ) (lab' : Lab),
      make lab p q = .ok (a, lab') →
      lab'.recipes = lab.recipes ∧ lab'.components = lab.components ∧
      lab'.componentLookup = lab.componentLookup) ∧
    (∀ (lab : Lab) (n : String) (x v : ℚ) (lab' : Lab),
      add lab n x = .ok (v, lab') →
      lab'.recipes = lab.recipes ∧ lab'.components = lab.components ∧
      lab'.componentLookup = lab.componentLookup) := by
  constructor
  · intro lab p q a lab' h
    rw [make] at h
    cases hname : normalizeName p with
    | none => rw [hname] at h; cases h
    | some p' =>
      rw [hname] at h
      simp only at h
      cases hq : normalizeQuantity q with
      | error e => rw [hq] at h; cases h
      | ok rq =>
        rw [hq] at h
        simp only at h
        by_cases h0 : rq = 0
        · rw [if_pos h0] at h
          simp only [Except.ok.injEq, Prod.mk.injEq] at h
          rw [← h.2]
          exact ⟨rfl, rfl, rfl⟩
        · rw [if_neg h0] at h
          by_cases hhas : (!(assocHas lab.recipes p')) = true
          · rw [if_pos hhas] at h
            simp only [Except.ok.injEq, Prod.mk.injEq] at h
            rw [← h.2]
            exact ⟨rfl, rfl, rfl⟩
          · rw [if_neg hhas] at h
            cases hmi : makeInternal lab (labFuel lab) p' rq [] lab.inventory with
            | error e => rw [hmi] at h; cases h
            | ok r =>
              rw [hmi] at h
              simp only [Except.ok.injEq, Prod.mk.injEq] at h
              rw [← h.2]
              exact ⟨rfl, rfl, rfl⟩
  · intro lab n x v lab' h
    rw [add] at h
    cases hres : resolveKnownSubstance lab n with
    | error e => rw [hres] at h; cases h
    | ok n' =>
      rw [hres] at h
      simp only [Except.bind, Bind.bind] at h
      cases hq : normalizeQuantity x with
      | error e => rw [hq] at h; cases h
      | ok x' =>
        rw [hq] at h
        simp only [Except.bind, pure, Except.pure, Except.ok.injEq, Prod.mk.injEq] at h
        rw [← h.2]
        exact ⟨rfl, rfl, rfl⟩

/-- Witness for C9: the gem laboratory's `make` and `add` preserve the
recipe table, components and lookup. -/
theorem C9_structure_frame_witness :
    make gemLab "gem" 4 = .ok (5/2, gemLabAfter) ∧
    add gemLab "stardust" 1 = .ok (6, gemLabAdd) ∧
    (gemLabAfter.recipes = gemLab.recipes ∧ gemLabAfter.components = gemLab.components ∧
      gemLabAfter.componentLookup = gemLab.componentLookup) ∧
    (gemLabAdd.recipes = gemLab.recipes ∧ gemLabAdd.components = gemLab.components ∧
      gemLabAdd.componentLookup = gemLab.componentLookup) := by
  refine ⟨by with_unfolding_all rfl, by with_unfolding_all rfl, ?_, ?_⟩
  · exact C9_structure_frame.1 gemLab "gem" 4 (5/2) gemLabAfter (by with_unfolding_all rfl)
  · exact C9_structure_frame.2 gemLab "stardust" 1 6 gemLabAdd (by with_unfolding_all rfl)

/-- Claim C8: for any name that normalizes, `make(p, 0)` returns 0 with the
laboratory unchanged; `make(p, q)` with `q < 0` fails with the range
(InvalidInput) error before any mutation; and for any normalizable name
with no recipe — unknown names included — `make(u, q)` with `q > 0`
returns 0 with the laboratory unchanged. -/
theorem C8_make_edge_cases :
    (∀ (lab : Lab) (p p' : String),
      normalizeName p = some p' →
      make lab p 0 = .ok (0, lab)) ∧
    (∀ (lab : Lab) (p p' : String) (q : ℚ),
      normalizeName p = some p' →
      q < 0 →
      make lab p q = .error (.rangeErr "Quantity cannot be negative")) ∧
    (∀ (lab : Lab) (u u' : String) (q : ℚ),
      normalizeName u = some u' →
      assocHas lab.recipes u' = false →
      0 < q →
      make lab u q = .ok (0, lab)) := by
  refine ⟨?_, ?_, ?_⟩
  · intro lab p p' hname
    rw [make, hname, normalizeQuantity_of_nonneg 0 le_rfl]
    simp
  · intro lab p p' q hname hq
    rw [make, hname]
    simp [normalizeQuantity, hq]
  · intro lab u u' q hname hhas hq
    rw [make, hname, normalizeQuantity_of_nonneg q hq.le]
    simp [hq.ne', hhas]

/-- Witness for C8 at the gem laboratory, including the unknown name
`ghost`. -/
theorem C8_make_edge_cases_witness :
    normalizeName "gem" = some "gem" ∧
    normalizeName "ghost" = some "ghost" ∧
    assocHas gemLab.recipes "ghost" = false ∧
    (-1 : ℚ) < 0 ∧ (0 : ℚ) < 1 ∧
    make gemLab "gem" 0 = .ok (0, gemLab) ∧
    make gemLab "gem" (-1) = .error (.rangeErr "Quantity cannot be negative") ∧
    make gemLab "ghost" 1 = .ok (0, gemLab) := by
  refine ⟨by with_unfolding_all rfl, by with_unfolding_all rfl, by with_unfolding_all rfl,
    by norm_num, by norm_num, ?_, ?_, ?_⟩
  · exact C8_make_edge_cases.1 gemLab "gem" "gem" (by with_unfolding_all rfl)
  · exact C8_make_edge_cases.2.1 gemLab "gem" "gem" (-1) (by with_unfolding_all rfl) (by norm_num)
  · exact C8_make_edge_cases.2.2 gemLab "ghost" "ghost" 1 (by with_unfolding_all rfl)
      (by with_unfolding_all rfl) (by norm_num)

/-- Claim C10: in `add`, name resolution precedes quantity validation —
an unknown (but normalizable) name yields the UnknownSubstance reference
error for every amount, including negative ones, and a known name with a
negative amount fails with the quantity error, in both cases without any
inventory change (the failing call returns no new state). -/
theorem C10_add_validation_order :
    (∀ (lab : Lab) (u u' : String) (x : ℚ),
      normalizeName u = some u' →
      assocHas lab.inventory u' = false →
      add lab u x = .error (.refErr "Unknown substance")) ∧
    (∀ (lab : Lab) (n n' : String) (x : ℚ),
      normalizeName n = some n' →
      assocHas lab.inventory n' = true →
      x < 0 →
      add lab n x = .error (.rangeErr "Quantity cannot be negative")) := by
  constructor
  · intro lab u u' x hname hhas
    rw [add, resolveKnownSubstance, hname]
    simp [hhas, Except.bind, Bind.bind]
  · intro lab n n' x hname hhas hx
    rw [add, resolveKnownSubstance, hname]
    simp [hhas, Except.bind, Bind.bind, normalizeQuantity, hx]

/-- Witness for C10 at the gem laboratory: `add("ghost", −3)` reports the
unknown substance (not the invalid quantity), `add("stardust", −1)` the
quantity. -/
theorem C10_add_validation_order_witness :
    normalizeName "ghost" = some "ghost" ∧
    assocHas gemLab.inventory "ghost" = false ∧
    normalizeName "stardust" = some "stardust" ∧
    assocHas gemLab.inventory "stardust" = true ∧
    (-1 : ℚ) < 0 ∧
    add gemLab "ghost" (-3) = .error (.refErr "Unknown substance") ∧
    add gemLab "stardust" (-1) = .error (.rangeErr "Quantity cannot be negative") := by
  refine ⟨by with_unfolding_all rfl, by with_unfolding_all rfl, by with_unfolding_all rfl,
    by with_unfolding_all rfl, by norm_num, ?_, ?_⟩
  · exact C10_add_validation_order.1 gemLab "ghost" "ghost" (-3)
      (by with_unfolding_all rfl) (by with_unfolding_all rfl)
  · exact C10_add_validation_order.2 gemLab "stardust" "stardust" (-1)
      (by with_unfolding_all rfl) (by with_unfolding_all rfl) (by norm_num)

/-- A cyclic laboratory exhibiting the negative-stock bug: raw substance
`raw` with stock 1/2, recipes `a = [(1, raw), (1, b)]` and
`b = [(1, a), (2, b)]` (one cyclic component with a self-loop, whose
system matrix `I − M` has the mixed-sign inverse `[[−1/2, −1/2], [−1/2, 1/2]]`). -/
def cyclicBugLaboratory : Except LabErr Lab :=
  mkLaboratory ["raw"] [("raw", 1/2)]
    [("a", [(1, "raw"), (1, "b")]), ("b", [(1, "a"), (2, "b")])]

/-- Claim C5 is violated by the code: after the valid call `make("a", 1)`
(which succeeds and returns 1), the known substance `b` holds −1/2 —
the cyclic decrement loop consumes 1/2 of `b` out of stock 0, and nothing
clamps or rejects the negative result. -/
theorem C5_negative_stock_bug :
    cyclicBugLaboratory.bind (fun lab => (make lab "a" 1).map
      (fun r => (r.1, Stock.getQ r.2.inventory "b"))) = .ok (1, -(1/2)) ∧
    ¬ (0 : ℚ) ≤ -(1/2) :=
  ⟨by with_unfolding_all rfl, by norm_num⟩

/-- Counterexample to claim C6 as stated: with the initial stock invalid
(unknown `moonwater`) and the recipes invalid (empty reagent list for
`gem`), construction reports the recipe error, not the initial-stock
error — recipes are validated before initial stock. -/
theorem C6_counterexample :
    mkLaboratory ["stardust"] [("moonwater", 1)] [("gem", [])]
      = .error (.typeErr "Reactions must be a non-empty array") ∧
    LabErr.typeErr "Reactions must be a non-empty array" ≠
      LabErr.refErr "Initial stock references unknown substance" :=
  ⟨by with_unfolding_all rfl, by decide⟩

/-- Claim C6 (amended): construction validates the raw-substance list
first, then the recipes mapping, then runs the graph analysis, and applies
(and validates) the initial stock last; consequently, whenever the recipe
table fails to build, that error is reported regardless of the initial
stock's content. -/
theorem C6_construction_order_amended :
    ∀ (knownSubstances : List String) (initialStock : List (String × ℚ))
      (reactions : List (String × List (ℚ × String))) (base : Stock) (e : LabErr),
      buildBaseInventory knownSubstances = .ok base →
      buildRecipes base reactions = .error e →
      mkLaboratory knownSubstances initialStock reactions = .error e := by
  intro ks st rs base e hbase hrec
  rw [mkLaboratory]
  simp [hbase, hrec, Except.bind, Bind.bind]

/-- Witness for the amended C6 at the counterexample input. -/
theorem C6_construction_order_amended_witness :
    buildBaseInventory ["stardust"] = .ok [("stardust", 0)] ∧
    buildRecipes [("stardust", 0)] [("gem", [])]
      = .error (.typeErr "Reactions must be a non-empty array") ∧
    mkLaboratory ["stardust"] [("moonwater", 1)] [("gem", [])]
      = .error (.typeErr "Reactions must be a non-empty array") := by
  refine ⟨by with_unfolding_all rfl, by with_unfolding_all rfl, ?_⟩
  exact C6_construction_order_amended ["stardust"] [("moonwater", 1)] [("gem", [])]
    [("stardust", 0)] (.typeErr "Reactions must be a non-empty array")
    (by with_unfolding_all rfl) (by with_unfolding_all rfl)

theorem makeInternal_cyclic_dispatch (lab : Lab) (fuel : Nat) (p : String) (q : ℚ)
    (stack : List String) (inv : Stock) (comp : Component)
    (hc : assocGet? lab.componentLookup p = some comp) (hcyc : comp.isCyclic = true) :
    makeInternal lab (fuel + 1) p q stack inv =
      makeFromCyclicComponent lab fuel comp p q inv := by
  simp only [makeInternal, hc, hcyc, if_true]

theorem cyclicScale_foldl_le (reqs : List (String × ℚ)) (inv : Stock) (init : ℚ) :
    reqs.foldl (fun scale sa =>
      if sa.2 = 0 then scale else min scale (Stock.getQ inv sa.1 / sa.2)) init ≤ init := by
  induction reqs generalizing init with
  | nil => exact le_rfl
  | cons r rest ih =>
    simp only [List.foldl_cons]
    by_cases h0 : r.2 = 0
    · rw [if_pos h0]
      exact ih init
    · rw [if_neg h0]
      exact le_trans (ih _) (min_le_left _ _)

theorem cyclicScale_le_one (reqs : List (String × ℚ)) (inv : Stock) :
    cyclicScale reqs inv ≤ 1 :=
  cyclicScale_foldl_le reqs inv 1

/-- Claim C3: for a product in a cyclic component, if the planned
production needs nothing from outside the component, `make(p, q)` returns
0 without touching the inventory; otherwise it returns `q × scale` where
`scale` is the minimum over external requirements of available external
stock (after top-up) divided by required amount, clamped to [0, 1] — in
particular 0 (so the call yields 0) when some required external substance
is entirely unavailable. -/
theorem C3_cyclic_production :
    ∀ (lab : Lab) (p p' : String) (q : ℚ) (comp : Component) (targetIndex : Nat)
      (reqs : List (String × ℚ)),
      normalizeName p = some p' →
      assocHas lab.recipes p' = true →
      assocGet? lab.componentLookup p' = some comp →
      comp.isCyclic = true →
      comp.products.indexOf? p' = some targetIndex →
      0 < q →
      reqs = cyclicExternalReqs lab.recipes comp
        (plannedProduction comp targetIndex q lab.inventory) →
      (reqs = [] → make lab p q = .ok (0, lab)) ∧
      (∀ (a : ℚ) (lab' : Lab) (inv1 : Stock),
        reqs ≠ [] →
        make lab p q = .ok (a, lab') →
        ensureExternals lab (labFuelCore lab) reqs lab.inventory = .ok inv1 →
        a = q * max 0 (cyclicScale reqs inv1) ∧ cyclicScale reqs inv1 ≤ 1) := by
  intro lab p p' q comp targetIndex reqs hname hhas hc hcyc hidx hq hreqs
  constructor
  · intro hempty
    rw [make, hname, normalizeQuantity_of_nonneg q hq.le]
    simp only [hq.ne', if_false, hhas, Bool.not_true, Bool.false_eq_true]
    rw [labFuel, show labFuelCore lab + 2 = (labFuelCore lab + 1) + 1 from rfl,
      makeInternal_cyclic_dispatch lab (labFuelCore lab + 1) p' q [] lab.inventory comp hc hcyc]
    simp only [makeFromCyclicComponent, not_le.2 hq, if_false, hidx, ← hreqs, hempty,
      List.length_nil, if_true]
  · intro a lab' inv1 hne hmake hens
    obtain ⟨hmi, -, -, -⟩ := make_run lab p p' q a lab' hname hq hhas hmake
    rw [show labFuelCore lab + 2 = (labFuelCore lab + 1) + 1 from rfl,
      makeInternal_cyclic_dispatch lab (labFuelCore lab + 1) p' q [] lab.inventory comp hc hcyc]
      at hmi
    simp only [makeFromCyclicComponent, not_le.2 hq, if_false, hidx, ← hreqs] at hmi
    rw [if_neg (by simpa using hne), hens] at hmi
    simp only at hmi
    by_cases hscale : cyclicScale reqs inv1 ≤ 0
    · rw [if_pos hscale] at hmi
      simp only [Except.ok.injEq, Prod.mk.injEq] at hmi
      refine ⟨?_, cyclicScale_le_one reqs inv1⟩
      rw [← hmi.1, max_eq_left hscale, mul_zero]
    · rw [if_neg hscale] at hmi
      simp only [Except.ok.injEq, Prod.mk.injEq] at hmi
      refine ⟨?_, cyclicScale_le_one reqs inv1⟩
      rw [← hmi.1, max_eq_right (le_of_lt (not_le.1 hscale))]

/-- A well-behaved cyclic laboratory: raw stock `{raw: 10}`, recipes
`a = [(1, raw), (1, b)]` and `b = [(1/2, a)]`, forming one two-member
cyclic component with inverse `[[2, 2], [1, 2]]`. -/
def simpleCycleLaboratory : Except LabErr Lab :=
  mkLaboratory ["raw"] [("raw", 10)] [("a", [(1, "raw"), (1, "b")]), ("b", [(1/2, "a")])]

/-- The constructed simple-cycle laboratory as a value. -/
def simpleCycleLab : Lab := simpleCycleLaboratory.toOption.getD ⟨[], [], [], []⟩

/-- The simple-cycle laboratory after `make("a", 1)`. -/
def simpleCycleLabAfter : Lab :=
  ((make simpleCycleLab "a" 1).toOption.getD (0, ⟨[], [], [], []⟩)).2

/-- Witness for C3 at the simple-cycle laboratory: the external
requirement is `[(raw, 2)]`, the scale is 1, and `make("a", 1)` returns
`1 × 1 = 1`. -/
theorem C3_cyclic_production_witness :
    normalizeName "a" = some "a" ∧
    assocHas simpleCycleLab.recipes "a" = true ∧
    assocGet? simpleCycleLab.componentLookup "a"
      = some ⟨["b", "a"], true, [[2, 2], [1, 2]]⟩ ∧
    (Component.mk ["b", "a"] true [[2, 2], [1, 2]]).isCyclic = true ∧
    (Component.mk ["b", "a"] true [[2, 2], [1, 2]]).products.indexOf? "a" = some 1 ∧
    (0 : ℚ) < 1 ∧
    [(("raw", 2) : String × ℚ)] = cyclicExternalReqs simpleCycleLab.recipes
      (Component.mk ["b", "a"] true [[2, 2], [1, 2]])
      (plannedProduction (Component.mk ["b", "a"] true [[2, 2], [1, 2]]) 1 1
        simpleCycleLab.inventory) ∧
    make simpleCycleLab "a" 1 = .ok (1, simpleCycleLabAfter) ∧
    ensureExternals simpleCycleLab (labFuelCore simpleCycleLab) [(("raw", 2) : String × ℚ)]
      simpleCycleLab.inventory = .ok simpleCycleLab.inventory ∧
    ((1 : ℚ) = 1 * max 0 (cyclicScale [(("raw", 2) : String × ℚ)] simpleCycleLab.inventory) ∧
      cyclicScale [(("raw", 2) : String × ℚ)] simpleCycleLab.inventory ≤ 1) := by
  refine ⟨by with_unfolding_all rfl, by with_unfolding_all rfl, by with_unfolding_all rfl,
    rfl, by with_unfolding_all rfl, by norm_num, by with_unfolding_all rfl,
    by with_unfolding_all rfl, by with_unfolding_all rfl, ?_⟩
  exact (C3_cyclic_production simpleCycleLab "a" "a" 1
      ⟨["b", "a"], true, [[2, 2], [1, 2]]⟩ 1 [(("raw", 2) : String × ℚ)]
      (by with_unfolding_all rfl) (by with_unfolding_all rfl) (by with_unfolding_all rfl)
      rfl (by with_unfolding_all rfl) (by norm_num) (by with_unfolding_all rfl)).2
    1 simpleCycleLabAfter simpleCycleLab.inventory (List.cons_ne_nil _ _)
    (by with_unfolding_all rfl) (by with_unfolding_all rfl)

/-- Specification-side pivot magnitude for one column: the largest
absolute value in that column among the remaining rows (row `col` and the
rows below it). -/
def columnPivotMagnitude (aug : List (List ℚ)) (col : Nat) : ℚ :=
  (List.range aug.length).foldl
    (fun m row => if col < row then max m |matGet aug row col| else m)
    |matGet aug col col|

/-- The sequence of selected pivot magnitudes along the elimination,
stopping (and recording the offending magnitude) as soon as one falls
below machine epsilon. -/
def pivotMagnitudesSpec : Nat → Nat → List (List ℚ) → List ℚ
  | 0, _, _ => []
  | fuel + 1, col, aug =>
    let mag := columnPivotMagnitude aug col
    if mag < machineEpsilon then [mag]
    else mag :: pivotMagnitudesSpec fuel (col + 1) (gaussStep aug col)

/-- The pivot magnitudes encountered when inverting `matrix`. -/
def pivotMagnitudes (matrix : List (List ℚ)) : List ℚ :=
  pivotMagnitudesSpec matrix.length 0 (augmentedOf matrix)

theorem pivot_fold_abs (aug : List (List ℚ)) (col : Nat) (rows : List Nat) (pr : Nat) :
    |matGet aug (rows.foldl (fun pivotRow row =>
        if col < row ∧ |matGet aug row col| > |matGet aug pivotRow col| then row
        else pivotRow) pr) col|
      = rows.foldl (fun m row => if col < row then max m |matGet aug row col| else m)
          |matGet aug pr col| := by
  induction rows generalizing pr with
  | nil => rfl
  | cons r rest ih =>
    simp only [List.foldl_cons]
    by_cases hcol : col < r
    · by_cases habs : |matGet aug r col| > |matGet aug pr col|
      · rw [if_pos ⟨hcol, habs⟩, if_pos hcol, max_eq_right habs.le]
        exact ih r
      · rw [if_neg (fun hc => habs hc.2), if_pos hcol, max_eq_left (not_lt.1 habs)]
        exact ih pr
    · rw [if_neg (fun hc => hcol hc.1), if_neg hcol]
      exact ih pr

theorem abs_findPivotRow (aug : List (List ℚ)) (col : Nat) :
    |matGet aug (findPivotRow aug col) col| = columnPivotMagnitude aug col := by
  rw [findPivotRow, columnPivotMagnitude]
  exact pivot_fold_abs aug col (List.range aug.length) col

theorem gaussLoop_error_iff (fuel : Nat) :
    ∀ (col : Nat) (aug : List (List ℚ)),
    gaussLoop fuel col aug = .error (.plainErr singularMsg) ↔
      ∃ mag ∈ pivotMagnitudesSpec fuel col aug, mag < machineEpsilon := by
  induction fuel with
  | zero =>
    intro col aug
    simp [gaussLoop, pivotMagnitudesSpec]
  | succ f ih =>
    intro col aug
    simp only [gaussLoop, pivotMagnitudesSpec, abs_findPivotRow]
    by_cases hm : columnPivotMagnitude aug col < machineEpsilon
    · simp [hm]
    · simp [hm, ih]

theorem invertMatrix_error_iff (matrix : List (List ℚ)) :
    invertMatrix matrix = .error (.plainErr singularMsg) ↔
      ∃ mag ∈ pivotMagnitudes matrix, mag < machineEpsilon := by
  rw [invertMatrix, pivotMagnitudes]
  have hmain := gaussLoop_error_iff matrix.length 0 (augmentedOf matrix)
  cases h : gaussLoop matrix.length 0 (augmentedOf matrix) with
  | error e =>
    rw [h] at hmain
    simpa [Except.map] using hmain
  | ok r =>
    rw [h] at hmain
    simp only [Except.map]
    constructor
    · intro hc
      cases hc
    · intro hc
      exact absurd (hmain.2 hc) (by simp)

/-- Claim C7: `#invertMatrix` selects, per column, the row whose entry has
the largest absolute value among the remaining rows (first conjunct:
the selected pivot's magnitude is exactly that column maximum), and the
inversion — hence construction of a laboratory with such a cyclic
component — fails with the SingularSystem error exactly when some selected
pivot's magnitude is smaller than machine epsilon (2⁻⁵²).  The degenerate
1:1 self-regeneration loop `gold = [(1, gold)]` makes construction fail. -/
theorem C7_gauss_partial_pivoting :
    (∀ (aug : List (List ℚ)) (col : Nat),
      |matGet aug (findPivotRow aug col) col| = columnPivotMagnitude aug col) ∧
    (∀ matrix : List (List ℚ),
      invertMatrix matrix = .error (.plainErr singularMsg) ↔
        ∃ mag ∈ pivotMagnitudes matrix, mag < machineEpsilon) ∧
    mkLaboratory ["raw"] [] [("gold", [(1, "gold")])] = .error (.plainErr singularMsg) :=
  ⟨abs_findPivotRow, invertMatrix_error_iff, by with_unfolding_all rfl⟩
